import Mathlib

/-!
Verification of the FPL optimizer core (fpl-optimizer repository).

This file gives a shallow embedding, in Lean 4, of the decision-making
pipeline of the repository: the Composite Player Viability scorer
(`src/cpv.py`), the strategy overlay (`src/strategies.py`), the integer
programming team-selection model (`src/optimizer.py`, embedded as the
feasibility predicate of the constraints built by `build_model` together
with the solution extraction of `solve`), and the greedy transfer
recommender (`src/utils.py`, `suggest_transfers`).  Real numbers of the
source are embedded as rationals; Python dictionaries become association
lists; `None`/NaN-able fields become `Option`.
-/

namespace FPL

/-- Player positions as used in the source data frames
(the strings GKP, DEF, MID, FWD from config.POSITION_MAP). -/
inductive Pos where
  | GKP
  | DEF
  | MID
  | FWD
deriving DecidableEq, Repr

/-- One row of the players data frame, restricted to the columns the four
core components read: id, position, team, cost, total_points, form,
ict_index, chance_of_playing_next_round, selected_by_percent.
`chance_of_playing_next_round` is `none` when the column holds NaN
(pd.isna in `calculate_sss`); `selected_by_percent` is `none` when the
value is missing or not parseable as a float (`apply_strategy`). -/
structure Player where
  id : Nat
  position : Pos
  team : Nat
  cost : ℚ
  total_points : ℚ
  form : ℚ
  ict_index : ℚ
  chance_of_playing_next_round : Option ℚ
  selected_by_percent : Option ℚ
deriving DecidableEq, Repr

/-- Association-list lookup, the embedding of a Python dict read
(`d.get(k)`); first binding wins, matching a dict with distinct keys. -/
def getVal {α : Type} : List (Nat × α) → Nat → Option α
  | [], _ => none
  | (k, v) :: rest, key => if key = k then some v else getVal rest key

/-- Clamp to the unit interval: `max(0.0, min(1.0, x))` from
`calculate_ffi`. -/
def clamp01 (x : ℚ) : ℚ := max 0 (min 1 x)

/-- Weight of the predicted-points sub-score (CPVCalculator.W_XP = 0.40). -/
def W_XP : ℚ := 40 / 100

/-- Weight of the fixture and form sub-score (CPVCalculator.W_FFI = 0.25). -/
def W_FFI : ℚ := 25 / 100

/-- Weight of the value and ceiling sub-score (CPVCalculator.W_VCS = 0.15). -/
def W_VCS : ℚ := 15 / 100

/-- Weight of the status signal (CPVCalculator.W_SSS = 0.20); in the source
this weight is absorbed into the multiplicative veto and never added. -/
def W_SSS : ℚ := 20 / 100

/-- Embedding of `CPVCalculator.calculate_ffi`: normalize form by 10 and
clamp to [0,1]; look the player's team up in the difficulty map with
default rating 3 (`self.difficulty.get(team_id, 3)`); fixture sub-score
`(5 - fdr) / 4`; blend 70/30 for GKP and DEF, 30/70 otherwise. -/
def calculate_ffi (difficulty : List (Nat × ℤ)) (p : Player) : ℚ :=
  let form_score := clamp01 (p.form / 10)
  let fdr : ℤ := (getVal difficulty p.team).getD 3
  let fixture_score : ℚ := (5 - (fdr : ℚ)) / 4
  match p.position with
  | Pos.GKP => 7/10 * fixture_score + 3/10 * form_score
  | Pos.DEF => 7/10 * fixture_score + 3/10 * form_score
  | _ => 3/10 * fixture_score + 7/10 * form_score

/-- Embedding of `CPVCalculator.calculate_vcs`: points per million capped
at 25 (zero when cost is not positive), ICT index capped at 300, and the
average of the two halves. -/
def calculate_vcs (p : Player) : ℚ :=
  let value_score : ℚ :=
    if 0 < p.cost then min 1 (p.total_points / p.cost / 25) else 0
  let ceiling_score : ℚ := min 1 (p.ict_index / 300)
  1/2 * value_score + 1/2 * ceiling_score

/-- Embedding of `CPVCalculator.calculate_sss`: missing chance means fully
available (multiplier 1); a chance below 75 is a hard veto (multiplier 0);
otherwise the multiplier is chance / 100. -/
def calculate_sss (p : Player) : ℚ :=
  match p.chance_of_playing_next_round with
  | none => 1
  | some c => if c < 75 then 0 else c / 100

/-- Embedding of the normalization denominator in
`CPVCalculator.calculate_all`: `max(self.xP.values()) if self.xP else 1`.
For a non-empty map this is the genuine maximum of the stored values;
for the empty map it defaults to 1. -/
def max_xp (xP : List (Nat × ℚ)) : ℚ :=
  match xP with
  | [] => 1
  | (_, v) :: rest => (rest.map Prod.snd).foldl max v

/-- The body of the loop of `CPVCalculator.calculate_all` for one player:
normalized predicted points, the three weighted sub-scores times 100, and
the status multiplier applied to the whole weighted sum. -/
def cpv_one (xP : List (Nat × ℚ)) (difficulty : List (Nat × ℤ)) (p : Player) : ℚ :=
  let raw_xp := (getVal xP p.id).getD 0
  let xp_score := raw_xp / max_xp xP
  let weighted_sum :=
    W_XP * xp_score * 100 + W_FFI * calculate_ffi difficulty p * 100 +
      W_VCS * calculate_vcs p * 100
  weighted_sum * calculate_sss p

/-- Embedding of `CPVCalculator.calculate_all`: one (id, CPV) pair per
player row. -/
def calculate_all (players : List Player) (xP : List (Nat × ℚ))
    (difficulty : List (Nat × ℤ)) : List (Nat × ℚ) :=
  players.map (fun p => (p.id, cpv_one xP difficulty p))

/-! Strategy overlay (`src/strategies.py`, `StrategyOverlay.apply_strategy`). -/

/-- The three strategy modes of `apply_strategy`; any other mode string
falls into the `standard` branch of the if/elif chain. -/
inductive StrategyMode where
  | standard
  | rank_protection
  | rank_climbing
deriving DecidableEq, Repr

/-- Ownership fraction used by `apply_strategy`: `selected_by_percent`
parsed as a float and divided by 100, with missing, NaN, empty or
unparseable values replaced by 0 before the division. -/
def ownershipOf (p : Player) : ℚ := p.selected_by_percent.getD 0 / 100

/-- The per-id body of the loop of `apply_strategy`: find the first player
row with the given id (`players_df[players_df['id'] == pid].iloc[0]`);
when no row matches, the score passes through unchanged; otherwise apply
the mode's multiplier. -/
def adjust_one (mode : StrategyMode) (players : List Player) (pid : Nat)
    (score : ℚ) : ℚ :=
  match players.find? (fun p => p.id == pid) with
  | none => score
  | some p =>
    match mode with
    | StrategyMode.rank_protection => score * (1 + ownershipOf p * (1/2))
    | StrategyMode.rank_climbing => score * (1 + (1 - ownershipOf p))
    | StrategyMode.standard => score

/-- Embedding of `StrategyOverlay.apply_strategy`: a fresh map with every
score adjusted; the input map is not mutated. -/
def apply_strategy (cpv_scores : List (Nat × ℚ)) (players : List Player)
    (mode : StrategyMode) : List (Nat × ℚ) :=
  cpv_scores.map (fun kv => (kv.1, adjust_one mode players kv.1 kv.2))

/-! Transfer recommender (`src/utils.py`, `suggest_transfers`). -/

/-- The expected-points column value of a player row: the score map looked
up at the player's id, with 0 for ids absent from the map (mirroring
`players_df['id'].map(final_scores).fillna(0)` in `main.py`). -/
def xpOf (xp : List (Nat × ℚ)) (p : Player) : ℚ := (getVal xp p.id).getD 0

/-- One suggested transfer, with the fields recorded by the dict built in
`suggest_transfers`: ids and costs of both players, the cost delta
`in_cost - out_cost` and the points gain
`in.expected_points - out.expected_points`. -/
structure Transfer where
  out_id : Nat
  in_id : Nat
  out_cost : ℚ
  in_cost : ℚ
  cost_diff : ℚ
  points_gain : ℚ
deriving DecidableEq, Repr

/-- The transfer record built for a chosen pair (out, in). -/
def mkTransfer (xp : List (Nat × ℚ)) (o i : Player) : Transfer where
  out_id := o.id
  in_id := i.id
  out_cost := o.cost
  in_cost := i.cost
  cost_diff := i.cost - o.cost
  points_gain := xpOf xp i - xpOf xp o

/-- First player row with a given id
(`players_df[players_df['id'] == pid].iloc[0]`). -/
def findPlayer (players : List Player) (pid : Nat) : Option Player :=
  players.find? (fun p => p.id == pid)

/-- One step of the best-pair scan of `suggest_transfers`: a pair whose
positions differ is skipped; the first valid pair is kept (its gain beats
the initial `-inf`); afterwards only a strictly larger points gain
(`points_gain > best_gain`) replaces the current best. -/
def considerPair (xp : List (Nat × ℚ)) (acc : Option Transfer)
    (oi : Player × Player) : Option Transfer :=
  if oi.1.position = oi.2.position then
    match acc with
    | none => some (mkTransfer xp oi.1 oi.2)
    | some t =>
        if t.points_gain < (mkTransfer xp oi.1 oi.2).points_gain then
          some (mkTransfer xp oi.1 oi.2)
        else acc
  else acc

/-- All (out, in) row pairs scanned by the nested `for out_id ... for
in_id ...` loops, out ids outermost, keeping only ids with a player row. -/
def pairCandidates (to_remove to_add : List Nat) (players : List Player) :
    List (Player × Player) :=
  to_remove.flatMap (fun oid =>
    to_add.filterMap (fun iid =>
      match findPlayer players oid, findPlayer players iid with
      | some o, some i => some (o, i)
      | _, _ => none))

/-- The best transfer of one round: the full scan of the nested loops of
`suggest_transfers`, keeping the valid pair with the strictly largest
points gain (first such pair in scan order on ties). -/
def bestTransfer (to_remove to_add : List Nat) (players : List Player)
    (xp : List (Nat × ℚ)) : Option Transfer :=
  (pairCandidates to_remove to_add players).foldl (considerPair xp) none

/-- The bounded greedy loop of `suggest_transfers`: at most `n` rounds,
each committing the best remaining pair and removing both of its ids;
the loop breaks as soon as no valid (same-position) pair remains. -/
def greedyTransfers (players : List Player) (xp : List (Nat × ℚ)) :
    Nat → List Nat → List Nat → List Transfer
  | 0, _, _ => []
  | n + 1, to_remove, to_add =>
    match bestTransfer to_remove to_add players xp with
    | none => []
    | some t =>
        t :: greedyTransfers players xp n (to_remove.erase t.out_id)
          (to_add.erase t.in_id)

/-- The ids to transfer out: the set difference `current_set -
optimal_set`, as a duplicate-free list in first-occurrence order (the
deterministic stand-in for Python's set iteration). -/
def removableIds (current_squad_ids optimal_squad_ids : List Nat) :
    List Nat :=
  (current_squad_ids.filter
    (fun x => !(optimal_squad_ids.contains x))).eraseDups

/-- The ids to transfer in: the set difference `optimal_set -
current_set`. -/
def addableIds (current_squad_ids optimal_squad_ids : List Nat) :
    List Nat :=
  (optimal_squad_ids.filter
    (fun x => !(current_squad_ids.contains x))).eraseDups

/-- Embedding of `suggest_transfers`: the two set differences, then the
greedy loop run `min(max_transfers, len(to_remove), len(to_add))` times,
a negative bound giving an empty range (`range` of a negative int). -/
def suggest_transfers (current_squad_ids optimal_squad_ids : List Nat)
    (players : List Player) (xp : List (Nat × ℚ)) (max_transfers : ℤ) :
    List Transfer :=
  greedyTransfers players xp
    (min max_transfers
      (min ((removableIds current_squad_ids optimal_squad_ids).length : ℤ)
        ((addableIds current_squad_ids optimal_squad_ids).length : ℤ))).toNat
    (removableIds current_squad_ids optimal_squad_ids)
    (addableIds current_squad_ids optimal_squad_ids)

/-! Team selection optimizer (`src/optimizer.py`, `FPLOptimizer`), with the
constants of `src/config.py`. The pulp model built by `build_model` is
embedded as a feasibility predicate over the two families of binary
variables (selection and captaincy, one of each per player id), and
`solve` as extraction of the solution dictionary from a feasible
assignment returned by the external solver. -/

/-- config.STARTING_11_BUDGET. -/
def STARTING_11_BUDGET : ℚ := 100

/-- config.STARTING_11_SIZE. -/
def STARTING_11_SIZE : Nat := 11

/-- config.MIN_GOALKEEPERS. -/
def MIN_GOALKEEPERS : Nat := 1

/-- config.MAX_GOALKEEPERS. -/
def MAX_GOALKEEPERS : Nat := 1

/-- config.MIN_DEFENDERS. -/
def MIN_DEFENDERS : Nat := 3

/-- config.MAX_DEFENDERS. -/
def MAX_DEFENDERS : Nat := 5

/-- config.MIN_MIDFIELDERS. -/
def MIN_MIDFIELDERS : Nat := 3

/-- config.MAX_MIDFIELDERS. -/
def MAX_MIDFIELDERS : Nat := 5

/-- config.MIN_FORWARDS. -/
def MIN_FORWARDS : Nat := 1

/-- config.MAX_FORWARDS. -/
def MAX_FORWARDS : Nat := 3

/-- config.MAX_PLAYERS_PER_TEAM. -/
def MAX_PLAYERS_PER_TEAM : Nat := 3

/-- config.DEFAULT_UNCERTAINTY_MARGIN (0.2). -/
def DEFAULT_UNCERTAINTY_MARGIN : ℚ := 2 / 10

/-- A 0/1 assignment of the two binary variable families of the model:
`sel pid` embeds `player_vars[pid]`, `cap pid` embeds `captain_vars[pid]`. -/
structure Assignment where
  sel : Nat → Bool
  cap : Nat → Bool

/-- Number of catalog rows satisfying a predicate (the value of a pulp sum
of binary variables over those rows). -/
def countIf (catalog : List Player) (f : Player → Bool) : Nat :=
  (catalog.filter f).length

/-- The selected rows of the catalog, as extracted by `solve`
(`players_df[players_df['id'].isin(selected_player_ids)]`). -/
def rosterOf (catalog : List Player) (sel : Nat → Bool) : List Player :=
  catalog.filter (fun p => sel p.id)

/-- Total cost of the selected rows (the left side of the budget
constraint, using each player's point-estimate `cost`). -/
def selCost (catalog : List Player) (sel : Nat → Bool) : ℚ :=
  ((rosterOf catalog sel).map Player.cost).sum

/-- The robust lower bound `points_lower` precomputed in `__init__`:
`expected_points * (1 - uncertainty_margin)`; `expected_points` itself is
the score map looked up with 0 for missing ids (fillna(0)). -/
def points_lower (xp : List (Nat × ℚ)) (margin : ℚ) (p : Player) : ℚ :=
  xpOf xp p * (1 - margin)

/-- The objective coefficient a player receives in `build_model`:
`points_lower` in robust mode, `expected_points` otherwise. -/
def objCoeff (robust : Bool) (xp : List (Nat × ℚ)) (margin : ℚ)
    (p : Player) : ℚ :=
  if robust then points_lower xp margin p else xpOf xp p

/-- Value of a binary variable under an assignment. -/
def b2q (b : Bool) : ℚ := if b then 1 else 0

/-- The objective of `build_model` under an assignment: the sum over all
players of the mode's coefficient times `(player_vars[pid] +
captain_vars[pid])`, doubling the captain's contribution. -/
def objective (catalog : List Player) (xp : List (Nat × ℚ)) (robust : Bool)
    (margin : ℚ) (a : Assignment) : ℚ :=
  (catalog.map (fun p =>
    objCoeff robust xp margin p * (b2q (a.sel p.id) + b2q (a.cap p.id)))).sum

/-- The conjunction of the constraints added by `build_model`, evaluated
on a 0/1 assignment: exactly 11 selected; budget; exactly one captain;
captain only if selected; the four position-count ranges; and at most 3
selected players per team. No constraint depends on the robust flag. -/
def modelFeasible (catalog : List Player) (budget : ℚ) (a : Assignment) :
    Prop :=
  countIf catalog (fun p => a.sel p.id) = STARTING_11_SIZE ∧
  selCost catalog a.sel ≤ budget ∧
  countIf catalog (fun p => a.cap p.id) = 1 ∧
  (∀ p ∈ catalog, a.cap p.id = true → a.sel p.id = true) ∧
  MIN_GOALKEEPERS ≤ countIf catalog (fun p => a.sel p.id && p.position == Pos.GKP) ∧
  countIf catalog (fun p => a.sel p.id && p.position == Pos.GKP) ≤ MAX_GOALKEEPERS ∧
  MIN_DEFENDERS ≤ countIf catalog (fun p => a.sel p.id && p.position == Pos.DEF) ∧
  countIf catalog (fun p => a.sel p.id && p.position == Pos.DEF) ≤ MAX_DEFENDERS ∧
  MIN_MIDFIELDERS ≤ countIf catalog (fun p => a.sel p.id && p.position == Pos.MID) ∧
  countIf catalog (fun p => a.sel p.id && p.position == Pos.MID) ≤ MAX_MIDFIELDERS ∧
  MIN_FORWARDS ≤ countIf catalog (fun p => a.sel p.id && p.position == Pos.FWD) ∧
  countIf catalog (fun p => a.sel p.id && p.position == Pos.FWD) ≤ MAX_FORWARDS ∧
  (∀ t ∈ catalog.map Player.team,
    countIf catalog (fun p => a.sel p.id && p.team == t) ≤ MAX_PLAYERS_PER_TEAM)

/-- The invariant set required of every valid roster (spec section 3),
stated of the extracted selected rows and the captaincy variables:
exactly 11 distinct members; exactly 1 GK, 3 to 5 DEF, 3 to 5 MID and 1
to 3 FWD; total cost within budget; at most 3 members of any one team;
and exactly one member is the captain. -/
def validRoster (roster : List Player) (cap : Nat → Bool) (budget : ℚ) :
    Prop :=
  roster.length = 11 ∧
  (roster.map Player.id).Nodup ∧
  (roster.filter (fun p => p.position == Pos.GKP)).length = 1 ∧
  3 ≤ (roster.filter (fun p => p.position == Pos.DEF)).length ∧
  (roster.filter (fun p => p.position == Pos.DEF)).length ≤ 5 ∧
  3 ≤ (roster.filter (fun p => p.position == Pos.MID)).length ∧
  (roster.filter (fun p => p.position == Pos.MID)).length ≤ 5 ∧
  1 ≤ (roster.filter (fun p => p.position == Pos.FWD)).length ∧
  (roster.filter (fun p => p.position == Pos.FWD)).length ≤ 3 ∧
  (roster.map Player.cost).sum ≤ budget ∧
  (∀ t, (roster.filter (fun p => p.team == t)).length ≤ 3) ∧
  (roster.filter (fun p => cap p.id)).length = 1

/-- The solution dictionary returned by `solve` on success: the selected
rows, the captain's id, the total cost and the remaining budget. -/
structure Solution where
  selected_players : List Player
  captain_id : Nat
  total_cost : ℚ
  budget_remaining : ℚ
deriving Repr

/-- Embedding of `FPLOptimizer.solve`, parameterized by the external
integer-programming solver (pulp's CBC in the source): when the solver
reports anything but an optimal assignment, `solve` returns the failure
signal `none` (the source returns the Python value None); otherwise it
extracts the solution dictionary from the assignment. -/
def solve (solver : List Player → ℚ → Option Assignment)
    (catalog : List Player) (budget : ℚ) : Option Solution :=
  match solver catalog budget with
  | none => none
  | some a =>
    let selected := rosterOf catalog a.sel
    let captain :=
      (((catalog.filter (fun p => a.cap p.id)).map Player.id).headD 0)
    some
      { selected_players := selected
        captain_id := captain
        total_cost := (selected.map Player.cost).sum
        budget_remaining := budget - (selected.map Player.cost).sum }

/-! Concrete inputs used to exercise the definitions below. -/

/-- A player row with the given id, team and position, cost 5 and neutral
remaining attributes. -/
def mkP (pid team : Nat) (pos : Pos) : Player where
  id := pid
  position := pos
  team := team
  cost := 5
  total_points := 0
  form := 0
  ict_index := 0
  chance_of_playing_next_round := none
  selected_by_percent := none

/-- A strong forward whose chance of playing is 50: high forecast, form,
value and ceiling, all of which the availability veto must override. -/
def pVeto : Player where
  id := 9
  position := Pos.FWD
  team := 2
  cost := 10
  total_points := 200
  form := 9
  ict_index := 250
  chance_of_playing_next_round := some 50
  selected_by_percent := some 60

/-- A goalkeeper whose team 7 has no entry in the difficulty map. -/
def pBlank : Player := mkP 1 7 Pos.GKP

/-- A player with a negative ICT index (every other attribute within the
ranges the claim under test names). -/
def pNegIct : Player :=
  { mkP 1 7 Pos.GKP with ict_index := -300 }

/-- An ordinary in-range player: positive forecastable attributes, chance
90, ownership 40. -/
def pPlain : Player where
  id := 3
  position := Pos.MID
  team := 5
  cost := 8
  total_points := 100
  form := 6
  ict_index := 120
  chance_of_playing_next_round := some 90
  selected_by_percent := some 40

/-- Two players identical but for ownership: `pOwnHigh` is fully owned. -/
def pOwnHigh : Player :=
  { mkP 1 1 Pos.MID with selected_by_percent := some 100 }

/-- The zero-ownership twin of `pOwnHigh`. -/
def pOwnLow : Player :=
  { mkP 2 1 Pos.MID with selected_by_percent := some 0 }

/-- An 11-player catalog filling a legal 4-4-2 formation with at most 3
players per team and total cost 55. -/
def catW : List Player :=
  [mkP 1 1 Pos.GKP, mkP 2 1 Pos.DEF, mkP 3 1 Pos.DEF, mkP 4 2 Pos.DEF,
    mkP 5 2 Pos.DEF, mkP 6 2 Pos.MID, mkP 7 3 Pos.MID, mkP 8 3 Pos.MID,
    mkP 9 3 Pos.MID, mkP 10 4 Pos.FWD, mkP 11 4 Pos.FWD]

/-- The assignment selecting all of `catW` and captaining player 1. -/
def asgW : Assignment where
  sel := fun _ => true
  cap := fun pid => pid == 1

/-- A solver that always reports infeasibility; trivially sound. -/
def solverNone : List Player → ℚ → Option Assignment := fun _ _ => none

/-- A midfielder to transfer out (id 1, forecast 2 under `xpT`). -/
def tOut : Player := mkP 1 1 Pos.MID

/-- A midfielder to transfer in (id 2, forecast 4 under `xpT`). -/
def tIn : Player := mkP 2 2 Pos.MID

/-- Scores for the transfer example: player 2 gains 2 points over
player 1. -/
def xpT : List (Nat × ℚ) := [(1, 2), (2, 4)]

/-- What every transfer record emitted by `suggest_transfers` satisfies:
its two ids resolve to catalog rows of the same position and its deltas
are the recorded `cost[in] - cost[out]` and `score[in] - score[out]`. -/
def TransferSpec (players : List Player) (xp : List (Nat × ℚ))
    (t : Transfer) : Prop :=
  ∃ o i : Player,
    findPlayer players t.out_id = some o ∧
    findPlayer players t.in_id = some i ∧
    o.position = i.position ∧
    t.out_cost = o.cost ∧ t.in_cost = i.cost ∧
    t.cost_diff = i.cost - o.cost ∧
    t.points_gain = xpOf xp i - xpOf xp o

/-! Facts about the fold computing the maximum forecast. -/

/-- The seed of a max-fold is a lower bound of its result. -/
theorem le_foldl_max (l : List ℚ) (b : ℚ) : b ≤ l.foldl max b := by
  induction l generalizing b with
  | nil => exact le_refl b
  | cons a t ih => exact le_trans (le_max_left b a) (ih (max b a))

/-- Every member of the list is a lower bound of a max-fold over it. -/
theorem mem_le_foldl_max (l : List ℚ) (b x : ℚ) (hx : x ∈ l) :
    x ≤ l.foldl max b := by
  induction l generalizing b with
  | nil => cases hx
  | cons a t ih =>
    rcases List.mem_cons.mp hx with rfl | h
    · exact le_trans (le_max_right b x) (le_foldl_max t _)
    · exact ih _ h

/-- Every stored forecast value is at most the normalization denominator
`max_xp`. -/
theorem le_max_xp_of_mem {xP : List (Nat × ℚ)} {kv : Nat × ℚ}
    (h : kv ∈ xP) : kv.2 ≤ max_xp xP := by
  match xP with
  | [] => cases h
  | hd :: rest =>
    obtain ⟨k0, v0⟩ := hd
    show kv.2 ≤ (rest.map Prod.snd).foldl max v0
    rcases List.mem_cons.mp h with rfl | hmem
    · exact le_foldl_max _ _
    · exact mem_le_foldl_max _ _ _ (List.mem_map_of_mem Prod.snd hmem)

/-- A successful association-list lookup returns a stored binding. -/
theorem getVal_mem {α : Type} {m : List (Nat × α)} {k : Nat} {v : α}
    (h : getVal m k = some v) : (k, v) ∈ m := by
  induction m with
  | nil => cases h
  | cons hd rest ih =>
    obtain ⟨k0, v0⟩ := hd
    unfold getVal at h
    by_cases hk : k = k0
    · rw [if_pos hk] at h
      injection h with hv
      subst hk
      subst hv
      exact List.mem_cons_self _ _
    · rw [if_neg hk] at h
      exact List.mem_cons_of_mem _ (ih h)

/-- The status multiplier is 0 whenever the chance of playing is present
and below 75. -/
theorem sss_veto {p : Player} {c : ℚ}
    (hc : p.chance_of_playing_next_round = some c) (hlt : c < 75) :
    calculate_sss p = 0 := by
  unfold calculate_sss
  rw [hc]
  simp [hlt]

/-- C2 (confirmed): for every player whose availability chance is present
and strictly below 75, the status multiplier gates the whole weighted sum
multiplicatively, so `calculate_all` assigns the player a final CPV score
of exactly 0, regardless of forecast, form, fixture difficulty, cost or
ceiling attributes. -/
theorem cpv_low_availability_veto (players : List Player)
    (xP : List (Nat × ℚ)) (difficulty : List (Nat × ℤ)) (p : Player)
    (c : ℚ) (hp : p ∈ players)
    (hc : p.chance_of_playing_next_round = some c) (hlt : c < 75) :
    cpv_one xP difficulty p = 0 ∧
      (p.id, 0) ∈ calculate_all players xP difficulty := by
  have h0 : cpv_one xP difficulty p = 0 := by
    unfold cpv_one
    rw [sss_veto hc hlt]
    ring
  refine ⟨h0, ?_⟩
  have hm : (p.id, cpv_one xP difficulty p) ∈
      calculate_all players xP difficulty :=
    List.mem_map_of_mem _ hp
  rw [h0] at hm
  exact hm

/-- Witness for C2 at a concrete strong forward with chance 50: every
other attribute is high, yet the CPV is 0. -/
theorem cpv_low_availability_veto_witness :
    cpv_one [(9, 10)] [(2, 1)] pVeto = 0 ∧
      (pVeto.id, 0) ∈ calculate_all [pVeto] [(9, 10)] [(2, 1)] :=
  cpv_low_availability_veto [pVeto] [(9, 10)] [(2, 1)] pVeto 50
    (List.mem_singleton.mpr rfl) rfl (by decide)

/-- C3 counterexample: a non-empty forecast map all of whose values are 0
drives the normalization denominator of `calculate_all` to 0, so the
source's `raw_xp / max_xp` is a division by zero (a ZeroDivisionError in
Python) rather than a well-defined sub-score. -/
theorem cpv_divzero_cex :
    ([((1 : Nat), (0 : ℚ))] ≠ []) ∧ max_xp [(1, 0)] = 0 := by
  exact ⟨by simp, rfl⟩

/-- C3 (amended): the predicted-points denominator defaults to 1 on an
empty forecast map, and is positive (so the xP sub-score is well-defined)
whenever the map holds at least one positive forecast; but a non-empty
forecast map all of whose values are 0 yields denominator 0 and the
source divides by zero. -/
theorem cpv_denominator_safe (xP : List (Nat × ℚ))
    (h : xP = [] ∨ ∃ kv ∈ xP, 0 < kv.2) : 0 < max_xp xP := by
  rcases h with rfl | ⟨kv, hmem, hpos⟩
  · norm_num [max_xp]
  · exact lt_of_lt_of_le hpos (le_max_xp_of_mem hmem)

/-- Witness for C3's amended statement at the one-entry map holding 3. -/
theorem cpv_denominator_safe_witness : 0 < max_xp [(1, 3)] :=
  cpv_denominator_safe [(1, 3)] (Or.inr ⟨(1, 3), by simp, by decide⟩)

/-- C4 counterexample: the goalkeeper `pBlank` plays for team 7, absent
from the (empty) difficulty map; `calculate_ffi` evaluates the player
with the default rating 3, giving 7/20, not the value 7/10 * ((5-5)/4) +
3/10 * form that the claimed worst rating 5 would give. -/
theorem ffi_missing_team_cex :
    getVal ([] : List (Nat × ℤ)) pBlank.team = none ∧
    calculate_ffi [] pBlank = 7 / 20 ∧
    calculate_ffi [] pBlank ≠
      7/10 * ((5 - 5) / 4) + 3/10 * clamp01 (pBlank.form / 10) := by
  refine ⟨rfl, ?_, ?_⟩
  · norm_num [calculate_ffi, clamp01, getVal, pBlank, mkP]
  · norm_num [calculate_ffi, clamp01, getVal, pBlank, mkP]

/-- C4 (amended): for every player whose teamId is absent from the
fixture-difficulty map, `calculate_ffi` evaluates the Fixture and Form
sub-score with the default difficulty rating 3 — exactly as if the map
held rating 3 for that team (fixture sub-score (5-3)/4 = 1/2), not the
worst rating 5. (The API layer separately fills teams without a fixture
with rating 5 before the map reaches the CPV calculator.) -/
theorem ffi_missing_team_default (difficulty : List (Nat × ℤ)) (p : Player)
    (h : getVal difficulty p.team = none) :
    calculate_ffi difficulty p = calculate_ffi [(p.team, 3)] p := by
  unfold calculate_ffi
  rw [h]
  simp [getVal]

/-- Witness for C4's amended statement: the empty difficulty map and the
singleton map rating team 7 at 3 give `pBlank` the same sub-score. -/
theorem ffi_missing_team_default_witness :
    calculate_ffi [] pBlank = calculate_ffi [(pBlank.team, 3)] pBlank :=
  ffi_missing_team_default [] pBlank rfl

/-- C9 counterexample: for a negative base score the rank-protection
multiplier (larger for the fully owned `pOwnHigh` than for the unowned
`pOwnLow`) drags the adjusted score down, so the claimed ordering A ≥ B
fails on identical base CPV scores of -1. -/
theorem strategy_ordering_cex :
    ownershipOf pOwnLow < ownershipOf pOwnHigh ∧
    adjust_one StrategyMode.rank_protection [pOwnHigh, pOwnLow]
        pOwnHigh.id (-1) <
      adjust_one StrategyMode.rank_protection [pOwnHigh, pOwnLow]
        pOwnLow.id (-1) := by
  constructor
  · norm_num [ownershipOf, pOwnHigh, pOwnLow, mkP]
  · have f1 : List.find? (fun p => p.id == pOwnHigh.id) [pOwnHigh, pOwnLow] =
        some pOwnHigh := rfl
    have f2 : List.find? (fun p => p.id == pOwnLow.id) [pOwnHigh, pOwnLow] =
        some pOwnLow := rfl
    unfold adjust_one
    rw [f1, f2]
    norm_num [ownershipOf, pOwnHigh, pOwnLow, mkP]

/-- C9 (amended): for two catalog players with identical nonnegative base
CPV scores, with A's ownership fraction strictly greater than B's,
`apply_strategy` in rank-protection mode adjusts by the multiplier
`1 + ownership/2` and yields A at least B, while rank-climbing mode
adjusts by `1 + (1 - ownership)` and yields A at most B; missing or
invalid ownership is treated as 0. The nonnegativity of the base score is
necessary (see the counterexample). -/
theorem strategy_ordering (players : List Player) (pA pB : Player) (s : ℚ)
    (hs : 0 ≤ s)
    (hA : findPlayer players pA.id = some pA)
    (hB : findPlayer players pB.id = some pB)
    (hown : ownershipOf pB < ownershipOf pA) :
    adjust_one StrategyMode.rank_protection players pA.id s =
      s * (1 + ownershipOf pA * (1/2)) ∧
    adjust_one StrategyMode.rank_climbing players pA.id s =
      s * (1 + (1 - ownershipOf pA)) ∧
    adjust_one StrategyMode.rank_protection players pB.id s ≤
      adjust_one StrategyMode.rank_protection players pA.id s ∧
    adjust_one StrategyMode.rank_climbing players pA.id s ≤
      adjust_one StrategyMode.rank_climbing players pB.id s := by
  unfold findPlayer at hA hB
  have eA1 : adjust_one StrategyMode.rank_protection players pA.id s =
      s * (1 + ownershipOf pA * (1/2)) := by
    unfold adjust_one
    rw [hA]
  have eA2 : adjust_one StrategyMode.rank_climbing players pA.id s =
      s * (1 + (1 - ownershipOf pA)) := by
    unfold adjust_one
    rw [hA]
  have eB1 : adjust_one StrategyMode.rank_protection players pB.id s =
      s * (1 + ownershipOf pB * (1/2)) := by
    unfold adjust_one
    rw [hB]
  have eB2 : adjust_one StrategyMode.rank_climbing players pB.id s =
      s * (1 + (1 - ownershipOf pB)) := by
    unfold adjust_one
    rw [hB]
  refine ⟨eA1, eA2, ?_, ?_⟩
  · rw [eA1, eB1]
    apply mul_le_mul_of_nonneg_left _ hs
    linarith
  · rw [eA2, eB2]
    apply mul_le_mul_of_nonneg_left _ hs
    linarith

/-- Witness for C9's amended statement: base score 10, full versus zero
ownership. -/
theorem strategy_ordering_witness :
    adjust_one StrategyMode.rank_protection [pOwnHigh, pOwnLow]
        pOwnHigh.id 10 =
      10 * (1 + ownershipOf pOwnHigh * (1/2)) ∧
    adjust_one StrategyMode.rank_climbing [pOwnHigh, pOwnLow]
        pOwnHigh.id 10 =
      10 * (1 + (1 - ownershipOf pOwnHigh)) ∧
    adjust_one StrategyMode.rank_protection [pOwnHigh, pOwnLow]
        pOwnLow.id 10 ≤
      adjust_one StrategyMode.rank_protection [pOwnHigh, pOwnLow]
        pOwnHigh.id 10 ∧
    adjust_one StrategyMode.rank_climbing [pOwnHigh, pOwnLow]
        pOwnHigh.id 10 ≤
      adjust_one StrategyMode.rank_climbing [pOwnHigh, pOwnLow]
        pOwnLow.id 10 :=
  strategy_ordering [pOwnHigh, pOwnLow] pOwnHigh pOwnLow 10 (by norm_num)
    (by simp [findPlayer, List.find?, pOwnHigh, pOwnLow, mkP])
    (by simp [findPlayer, List.find?, pOwnHigh, pOwnLow, mkP])
    (by norm_num [ownershipOf, pOwnHigh, pOwnLow, mkP])

/-- C8 counterexample: called with maxTransfers = -1, `suggest_transfers`
returns the empty transfer list — an ordinary return value, not an
InvalidTransferRequest failure (no such error exists in the source) —
even though with maxTransfers = 1 the same inputs yield a transfer. -/
theorem transfers_negative_cex :
    suggest_transfers [1] [2] [tOut, tIn] xpT (-1) = [] ∧
    suggest_transfers [1] [2] [tOut, tIn] xpT 1 ≠ [] := by
  constructor
  · rfl
  · decide

/-- C8 (amended): for every maxTransfers strictly below 0 (and any current
squad, optimal squad, catalog and score map), `suggest_transfers` runs
zero greedy rounds and returns the empty transfer list; it does not fail
and no InvalidTransferRequest error exists in the code. -/
theorem transfers_negative_empty (current optimal : List Nat)
    (players : List Player) (xp : List (Nat × ℚ)) (k : ℤ) (hk : k < 0) :
    suggest_transfers current optimal players xp k = [] := by
  have h0 : ∀ a b : ℤ, (min k (min a b)).toNat = 0 := fun a b =>
    Int.toNat_of_nonpos (le_trans (min_le_left _ _) (le_of_lt hk))
  simp only [suggest_transfers, h0, greedyTransfers]

/-- Witness for C8's amended statement at maxTransfers = -1. -/
theorem transfers_negative_empty_witness :
    suggest_transfers [1] [2] [tOut, tIn] xpT (-1) = [] :=
  transfers_negative_empty [1] [2] [tOut, tIn] xpT (-1) (by decide)

/-- C5 (confirmed): in robust mode the objective gives every player the
coefficient `score * (1 - margin)` (so the whole objective is the
deterministic objective scaled by `1 - margin`), the default uncertainty
margin is 0.2, and the constraints — which never read the robust flag —
keep using each player's point-estimate cost in the budget constraint. -/
theorem robust_objective_margin :
    (∀ (catalog : List Player) (xp : List (Nat × ℚ)) (margin : ℚ)
        (a : Assignment),
      objective catalog xp true margin a =
        (1 - margin) * objective catalog xp false margin a) ∧
    (∀ (xp : List (Nat × ℚ)) (margin : ℚ) (p : Player),
      objCoeff true xp margin p = xpOf xp p * (1 - margin)) ∧
    DEFAULT_UNCERTAINTY_MARGIN = 1/5 ∧
    (∀ (catalog : List Player) (budget : ℚ) (a : Assignment),
      modelFeasible catalog budget a → selCost catalog a.sel ≤ budget) := by
  refine ⟨?_, ?_, by norm_num [DEFAULT_UNCERTAINTY_MARGIN], ?_⟩
  · intro catalog xp margin a
    have hmap :
        (fun p => objCoeff true xp margin p *
          (b2q (a.sel p.id) + b2q (a.cap p.id))) =
        fun p => (1 - margin) * (objCoeff false xp margin p *
          (b2q (a.sel p.id) + b2q (a.cap p.id))) := by
      funext p
      simp [objCoeff, points_lower]
      ring
    unfold objective
    rw [hmap, List.sum_map_mul_left]
  · intro xp margin p
    simp [objCoeff, points_lower]
  · intro catalog budget a h
    exact h.2.1

/-- C6 (confirmed): with budget 0 and a catalog of strictly positive
costs, no assignment satisfies the model's constraints, so any sound
solver reports infeasibility and `solve` returns the failure signal
`none`, never a roster-bearing solution. -/
theorem optimize_budget_zero_infeasible
    (solver : List Player → ℚ → Option Assignment)
    (hsound : ∀ catalog budget a, solver catalog budget = some a →
      modelFeasible catalog budget a)
    (catalog : List Player) (hpos : ∀ p ∈ catalog, 0 < p.cost) :
    solve solver catalog 0 = none ∧
      ∀ s : Solution, solve solver catalog 0 ≠ some s := by
  have hnone : solver catalog 0 = none := by
    cases h : solver catalog 0 with
    | none => rfl
    | some a =>
      exfalso
      have hfeas := hsound catalog 0 a h
      obtain ⟨h11, hbudget, _⟩ := hfeas
      have hne : rosterOf catalog a.sel ≠ [] := by
        intro hnil
        have h11' : (rosterOf catalog a.sel).length = STARTING_11_SIZE := h11
        rw [hnil] at h11'
        exact absurd h11'.symm (by norm_num [STARTING_11_SIZE])
      have hsum : 0 < ((rosterOf catalog a.sel).map Player.cost).sum := by
        apply List.sum_pos
        · intro x hx
          obtain ⟨q, hq, rfl⟩ := List.mem_map.mp hx
          exact hpos q (List.mem_of_mem_filter hq)
        · simpa using hne
      have : ¬ selCost catalog a.sel ≤ 0 := by
        unfold selCost
        exact not_le.mpr hsum
      exact this hbudget
  constructor
  · simp [solve, hnone]
  · intro s
    simp [solve, hnone]

/-- Witness for C6 at the concrete 11-player catalog `catW` (all costs 5)
with the trivially sound always-infeasible solver. -/
theorem optimize_budget_zero_infeasible_witness :
    solve solverNone catW 0 = none ∧
      ∀ s : Solution, solve solverNone catW 0 ≠ some s :=
  optimize_budget_zero_infeasible solverNone (fun _ _ _ h => nomatch h)
    catW (by decide)

/-- Filtering the selected roster rows is filtering the catalog by the
conjoined predicate (the form every pulp position/team sum takes). -/
theorem roster_filter_eq (catalog : List Player) (sel : Nat → Bool)
    (f : Player → Bool) :
    (rosterOf catalog sel).filter f =
      catalog.filter (fun p => sel p.id && f p) := by
  unfold rosterOf
  rw [List.filter_filter]
  exact List.filter_congr fun p _ => Bool.and_comm (f p) (sel p.id)

/-- C1 (confirmed): whenever the solver returns an assignment satisfying
every constraint `build_model` imposes, the extracted roster satisfies
every invariant of a valid Roster: exactly 11 distinct selected players;
exactly 1 GK, 3 to 5 DEF, 3 to 5 MID, 1 to 3 FWD; total cost within
budget; at most 3 players of any one team; and exactly one selected
player is the captain. -/
theorem optimize_roster_invariants (catalog : List Player) (budget : ℚ)
    (a : Assignment) (hids : (catalog.map Player.id).Nodup)
    (hfeas : modelFeasible catalog budget a) :
    validRoster (rosterOf catalog a.sel) a.cap budget := by
  obtain ⟨h11, hbudget, hcap1, hcapsel, hgk1, hgk2, hdef1, hdef2, hmid1,
    hmid2, hfwd1, hfwd2, hteam⟩ := hfeas
  refine ⟨h11, ?_, ?_, ?_, ?_, ?_, ?_, ?_, ?_, hbudget, ?_, ?_⟩
  · exact List.Nodup.sublist
      (List.Sublist.map Player.id (List.filter_sublist catalog)) hids
  · rw [roster_filter_eq]
    exact le_antisymm hgk2 hgk1
  · rw [roster_filter_eq]
    exact hdef1
  · rw [roster_filter_eq]
    exact hdef2
  · rw [roster_filter_eq]
    exact hmid1
  · rw [roster_filter_eq]
    exact hmid2
  · rw [roster_filter_eq]
    exact hfwd1
  · rw [roster_filter_eq]
    exact hfwd2
  · intro t
    by_cases ht : t ∈ catalog.map Player.team
    · rw [roster_filter_eq]
      exact hteam t ht
    · have hnil : (rosterOf catalog a.sel).filter (fun p => p.team == t) =
          [] := by
        rw [List.filter_eq_nil_iff]
        intro p hp hteq
        apply ht
        have : p.team = t := by simpa using hteq
        rw [← this]
        exact List.mem_map_of_mem Player.team (List.mem_of_mem_filter hp)
      rw [hnil]
      simp
  · rw [roster_filter_eq]
    have heq : catalog.filter (fun p => a.sel p.id && a.cap p.id) =
        catalog.filter (fun p => a.cap p.id) :=
      List.filter_congr fun p hp => by
        cases hc : a.cap p.id with
        | true => simp [hcapsel p hp hc, hc]
        | false => simp [hc]
    rw [heq]
    exact hcap1

/-- Witness for C1: the full catalog `catW` selected with captain 1 is
feasible (4-4-2, cost 55 within budget 100) and the extracted roster
satisfies every invariant. -/
theorem optimize_roster_invariants_witness :
    validRoster (rosterOf catW asgW.sel) asgW.cap 100 :=
  optimize_roster_invariants catW 100 asgW (by decide)
    ⟨by decide, by norm_num [selCost, rosterOf, catW, mkP, asgW], by decide,
      by decide, by decide, by decide, by decide, by decide, by decide,
      by decide, by decide, by decide, by decide⟩

/-! Facts about the best-pair scan of the transfer recommender. -/

/-- One scan step from an empty accumulator: a same-position pair is
committed, anything else skipped. -/
theorem considerPair_none (xp : List (Nat × ℚ)) (a : Player × Player) :
    considerPair xp none a =
      if a.1.position = a.2.position then some (mkTransfer xp a.1 a.2)
      else none := by
  unfold considerPair
  by_cases hp : a.1.position = a.2.position
  · rw [if_pos hp]
  · rw [if_neg hp]

/-- One scan step from a committed transfer: only a same-position pair of
strictly larger points gain replaces it. -/
theorem considerPair_some (xp : List (Nat × ℚ)) (t0 : Transfer)
    (a : Player × Player) :
    considerPair xp (some t0) a =
      if a.1.position = a.2.position then
        (if t0.points_gain < (mkTransfer xp a.1 a.2).points_gain
          then some (mkTransfer xp a.1 a.2) else some t0)
      else some t0 := by
  unfold considerPair
  by_cases hp : a.1.position = a.2.position
  · rw [if_pos hp]
  · rw [if_neg hp]

/-- A scan result can only be the unchanged accumulator or the record of
a same-position candidate pair. -/
theorem foldl_consider_eq_or (xp : List (Nat × ℚ))
    (l : List (Player × Player)) :
    ∀ (acc : Option Transfer) (t : Transfer),
      l.foldl (considerPair xp) acc = some t →
      acc = some t ∨ ∃ oi ∈ l, oi.1.position = oi.2.position ∧
        t = mkTransfer xp oi.1 oi.2 := by
  induction l with
  | nil => intro acc t h; exact Or.inl h
  | cons a l ih =>
    intro acc t h
    rw [List.foldl_cons] at h
    rcases ih _ _ h with hacc | ⟨oi, hoi, hpos, ht⟩
    · by_cases hp : a.1.position = a.2.position
      · cases acc with
        | none =>
          rw [considerPair_none, if_pos hp] at hacc
          injection hacc with h'
          exact Or.inr ⟨a, List.mem_cons_self _ _, hp, h'.symm⟩
        | some t0 =>
          rw [considerPair_some, if_pos hp] at hacc
          by_cases hg :
              t0.points_gain < (mkTransfer xp a.1 a.2).points_gain
          · rw [if_pos hg] at hacc
            injection hacc with h'
            exact Or.inr ⟨a, List.mem_cons_self _ _, hp, h'.symm⟩
          · rw [if_neg hg] at hacc
            exact Or.inl hacc
      · cases acc with
        | none =>
          rw [considerPair_none, if_neg hp] at hacc
          cases hacc
        | some t0 =>
          rw [considerPair_some, if_neg hp] at hacc
          exact Or.inl hacc
    · exact Or.inr ⟨oi, List.mem_cons_of_mem _ hoi, hpos, ht⟩

/-- A scan started from a committed transfer ends in a transfer of at
least that points gain. -/
theorem foldl_consider_mono (xp : List (Nat × ℚ))
    (l : List (Player × Player)) :
    ∀ t0 : Transfer, ∃ t, l.foldl (considerPair xp) (some t0) = some t ∧
      t0.points_gain ≤ t.points_gain := by
  induction l with
  | nil => intro t0; exact ⟨t0, rfl, le_refl _⟩
  | cons a l ih =>
    intro t0
    rw [List.foldl_cons]
    have step : ∃ t1, considerPair xp (some t0) a = some t1 ∧
        t0.points_gain ≤ t1.points_gain := by
      rw [considerPair_some]
      by_cases hp : a.1.position = a.2.position
      · rw [if_pos hp]
        by_cases hg : t0.points_gain < (mkTransfer xp a.1 a.2).points_gain
        · rw [if_pos hg]
          exact ⟨_, rfl, le_of_lt hg⟩
        · rw [if_neg hg]
          exact ⟨t0, rfl, le_refl _⟩
      · rw [if_neg hp]
        exact ⟨t0, rfl, le_refl _⟩
    obtain ⟨t1, he, hle⟩ := step
    rw [he]
    obtain ⟨t, ht, hle2⟩ := ih t1
    exact ⟨t, ht, le_trans hle hle2⟩

/-- The scan's result has at least the points gain of every same-position
candidate pair: the chosen pair maximizes `score[in] - score[out]`. -/
theorem foldl_consider_max (xp : List (Nat × ℚ))
    (l : List (Player × Player)) :
    ∀ (acc : Option Transfer) (t : Transfer),
      l.foldl (considerPair xp) acc = some t →
      ∀ oi ∈ l, oi.1.position = oi.2.position →
        (mkTransfer xp oi.1 oi.2).points_gain ≤ t.points_gain := by
  induction l with
  | nil => intro acc t h oi hoi; cases hoi
  | cons a l ih =>
    intro acc t h oi hoi hpos
    rw [List.foldl_cons] at h
    rcases List.mem_cons.mp hoi with rfl | hmem
    · have step : ∃ t1, considerPair xp acc oi = some t1 ∧
          (mkTransfer xp oi.1 oi.2).points_gain ≤ t1.points_gain := by
        cases acc with
        | none =>
          rw [considerPair_none, if_pos hpos]
          exact ⟨_, rfl, le_refl _⟩
        | some t0 =>
          rw [considerPair_some, if_pos hpos]
          by_cases hg :
              t0.points_gain < (mkTransfer xp oi.1 oi.2).points_gain
          · rw [if_pos hg]
            exact ⟨_, rfl, le_refl _⟩
          · rw [if_neg hg]
            exact ⟨t0, rfl, le_of_not_lt hg⟩
      obtain ⟨t1, he, hle⟩ := step
      rw [he] at h
      obtain ⟨t', ht', hle2⟩ := foldl_consider_mono xp l t1
      rw [h] at ht'
      injection ht' with he2
      rw [← he2] at hle2
      exact le_trans hle hle2
    · exact ih _ _ h oi hmem hpos

/-- The scan comes back empty only from an empty accumulator with no
same-position candidate pair left. -/
theorem foldl_consider_none (xp : List (Nat × ℚ))
    (l : List (Player × Player)) :
    ∀ acc, l.foldl (considerPair xp) acc = none →
      acc = none ∧ ∀ oi ∈ l, oi.1.position ≠ oi.2.position := by
  induction l with
  | nil =>
    intro acc h
    exact ⟨h, by intro oi hoi; cases hoi⟩
  | cons a l ih =>
    intro acc h
    rw [List.foldl_cons] at h
    obtain ⟨hstep, hrest⟩ := ih _ h
    have hnp : a.1.position ≠ a.2.position := by
      intro hp
      cases acc with
      | none =>
        rw [considerPair_none, if_pos hp] at hstep
        cases hstep
      | some t0 =>
        rw [considerPair_some, if_pos hp] at hstep
        by_cases hg : t0.points_gain < (mkTransfer xp a.1 a.2).points_gain
        · rw [if_pos hg] at hstep
          cases hstep
        · rw [if_neg hg] at hstep
          cases hstep
    have hacc : acc = none := by
      cases acc with
      | none => rfl
      | some t0 =>
        rw [considerPair_some, if_neg hnp] at hstep
        cases hstep
    refine ⟨hacc, ?_⟩
    intro oi hoi
    rcases List.mem_cons.mp hoi with rfl | hmem
    · exact hnp
    · exact hrest oi hmem

/-- A found player carries the id it was looked up by, so it can be
looked up again by its own id. -/
theorem findPlayer_id_eq {players : List Player} {pid : Nat} {o : Player}
    (h : findPlayer players pid = some o) :
    o.id = pid ∧ findPlayer players o.id = some o := by
  unfold findPlayer at h ⊢
  have hp := List.find?_some h
  have hid : o.id = pid := by simpa using hp
  exact ⟨hid, by rw [hid]; exact h⟩

/-- Both components of a candidate pair are rows found in the catalog by
their own ids. -/
theorem pairCandidates_spec {rem add : List Nat} {players : List Player}
    {o i : Player} (h : (o, i) ∈ pairCandidates rem add players) :
    findPlayer players o.id = some o ∧ findPlayer players i.id = some i := by
  unfold pairCandidates at h
  rw [List.mem_flatMap] at h
  obtain ⟨oid, _, hmem⟩ := h
  rw [List.mem_filterMap] at hmem
  obtain ⟨iid, _, heq⟩ := hmem
  cases ho : findPlayer players oid with
  | none => rw [ho] at heq; simp at heq
  | some o' =>
    cases hi : findPlayer players iid with
    | none => rw [ho, hi] at heq; simp at heq
    | some i' =>
      rw [ho, hi] at heq
      injection heq with heq2
      injection heq2 with ho2 hi2
      subst ho2
      subst hi2
      exact ⟨(findPlayer_id_eq ho).2, (findPlayer_id_eq hi).2⟩

/-- A round's best transfer is a valid same-position swap with the
recorded deltas, and its points gain dominates every same-position
candidate pair of that round. -/
theorem bestTransfer_some_spec {rem add : List Nat}
    {players : List Player} {xp : List (Nat × ℚ)} {t : Transfer}
    (h : bestTransfer rem add players xp = some t) :
    TransferSpec players xp t ∧
      ∀ o i : Player, (o, i) ∈ pairCandidates rem add players →
        o.position = i.position →
        xpOf xp i - xpOf xp o ≤ t.points_gain := by
  unfold bestTransfer at h
  constructor
  · rcases foldl_consider_eq_or xp _ none t h with hacc | h2
    · cases hacc
    · obtain ⟨⟨o1, i1⟩, hoi, hpos, ht⟩ := h2
      obtain ⟨ho, hi⟩ := pairCandidates_spec hoi
      subst ht
      exact ⟨o1, i1, ho, hi, hpos, rfl, rfl, rfl, rfl⟩
  · intro o i hoi hpos
    exact foldl_consider_max xp _ none t h (o, i) hoi hpos

/-- The greedy loop runs at most its round bound. -/
theorem greedyTransfers_length (players : List Player)
    (xp : List (Nat × ℚ)) :
    ∀ (n : Nat) (rem add : List Nat),
      (greedyTransfers players xp n rem add).length ≤ n := by
  intro n
  induction n with
  | zero => intro rem add; simp [greedyTransfers]
  | succ n ih =>
    intro rem add
    unfold greedyTransfers
    cases hb : bestTransfer rem add players xp with
    | none => simp
    | some t =>
      simp only [List.length_cons]
      exact Nat.succ_le_succ (ih _ _)

/-- Every transfer the greedy loop emits is a valid same-position swap
with the recorded deltas. -/
theorem greedyTransfers_spec (players : List Player)
    (xp : List (Nat × ℚ)) :
    ∀ (n : Nat) (rem add : List Nat),
      ∀ t ∈ greedyTransfers players xp n rem add,
        TransferSpec players xp t := by
  intro n
  induction n with
  | zero => intro rem add t ht; simp [greedyTransfers] at ht
  | succ n ih =>
    intro rem add t ht
    unfold greedyTransfers at ht
    cases hb : bestTransfer rem add players xp with
    | none => rw [hb] at ht; simp at ht
    | some t0 =>
      rw [hb] at ht
      rcases List.mem_cons.mp ht with rfl | hmem
      · exact (bestTransfer_some_spec hb).1
      · exact ih _ _ t hmem

/-- C7 (confirmed): `suggest_transfers` returns at most maxTransfers
transfers, each pairing two same-position players with the recorded cost
delta and points gain; it is the greedy loop bounded by
`min(maxTransfers, |removable|, |addable|)` rounds, each round choosing a
same-position pair maximizing `score[in] - score[out]` among the
remaining pairs, and stopping early as soon as no same-position pair
remains. -/
theorem suggest_transfers_greedy (current optimal : List Nat)
    (players : List Player) (xp : List (Nat × ℚ)) (k : ℤ) (hk : 0 ≤ k) :
    ((suggest_transfers current optimal players xp k).length : ℤ) ≤ k ∧
    (∀ t ∈ suggest_transfers current optimal players xp k,
      TransferSpec players xp t) ∧
    (∀ (rem add : List Nat) (t : Transfer),
      bestTransfer rem add players xp = some t →
      TransferSpec players xp t ∧
        ∀ o i : Player, (o, i) ∈ pairCandidates rem add players →
          o.position = i.position →
          xpOf xp i - xpOf xp o ≤ t.points_gain) ∧
    (∀ rem add : List Nat, bestTransfer rem add players xp = none →
      (∀ oi ∈ pairCandidates rem add players,
        oi.1.position ≠ oi.2.position) ∧
      ∀ n : Nat, greedyTransfers players xp (n + 1) rem add = []) := by
  refine ⟨?_, ?_, ?_, ?_⟩
  · unfold suggest_transfers
    have h1 := greedyTransfers_length players xp
      (min k (min ((removableIds current optimal).length : ℤ)
        ((addableIds current optimal).length : ℤ))).toNat
      (removableIds current optimal) (addableIds current optimal)
    calc ((greedyTransfers players xp
          (min k (min ((removableIds current optimal).length : ℤ)
            ((addableIds current optimal).length : ℤ))).toNat
          (removableIds current optimal)
          (addableIds current optimal)).length : ℤ)
        ≤ ((min k (min ((removableIds current optimal).length : ℤ)
            ((addableIds current optimal).length : ℤ))).toNat : ℤ) := by
          exact_mod_cast h1
      _ ≤ (k.toNat : ℤ) := by
          exact_mod_cast Int.toNat_le_toNat (min_le_left _ _)
      _ = k := Int.toNat_of_nonneg hk
  · intro t ht
    exact greedyTransfers_spec players xp _ _ _ t ht
  · intro rem add t hb
    exact bestTransfer_some_spec hb
  · intro rem add hb
    have hn := foldl_consider_none xp (pairCandidates rem add players)
      none hb
    refine ⟨hn.2, ?_⟩
    intro n
    unfold greedyTransfers
    rw [hb]

/-- Witness for C7: one available swap, bound 1. -/
theorem suggest_transfers_greedy_witness :
    ((suggest_transfers [1] [2] [tOut, tIn] xpT 1).length : ℤ) ≤ 1 ∧
    (∀ t ∈ suggest_transfers [1] [2] [tOut, tIn] xpT 1,
      TransferSpec [tOut, tIn] xpT t) ∧
    (∀ (rem add : List Nat) (t : Transfer),
      bestTransfer rem add [tOut, tIn] xpT = some t →
      TransferSpec [tOut, tIn] xpT t ∧
        ∀ o i : Player, (o, i) ∈ pairCandidates rem add [tOut, tIn] →
          o.position = i.position →
          xpOf xpT i - xpOf xpT o ≤ t.points_gain) ∧
    (∀ rem add : List Nat, bestTransfer rem add [tOut, tIn] xpT = none →
      (∀ oi ∈ pairCandidates rem add [tOut, tIn],
        oi.1.position ≠ oi.2.position) ∧
      ∀ n : Nat, greedyTransfers [tOut, tIn] xpT (n + 1) rem add = []) :=
  suggest_transfers_greedy [1] [2] [tOut, tIn] xpT 1 (by decide)

/-! Range facts about the CPV sub-scores. -/

/-- The clamped form score stays in the unit interval. -/
theorem clamp01_bounds (x : ℚ) : 0 ≤ clamp01 x ∧ clamp01 x ≤ 1 := by
  unfold clamp01
  exact ⟨le_max_left 0 _, max_le (by norm_num) (min_le_left 1 x)⟩

/-- With every difficulty rating in [1,5] (and the default 3 for absent
teams), the fixture and form sub-score stays in the unit interval. -/
theorem ffi_bounds (difficulty : List (Nat × ℤ)) (p : Player)
    (hd : ∀ kv ∈ difficulty, 1 ≤ kv.2 ∧ kv.2 ≤ 5) :
    0 ≤ calculate_ffi difficulty p ∧ calculate_ffi difficulty p ≤ 1 := by
  have hfdr : 1 ≤ ((getVal difficulty p.team).getD 3 : ℤ) ∧
      ((getVal difficulty p.team).getD 3 : ℤ) ≤ 5 := by
    cases hv : getVal difficulty p.team with
    | none => norm_num
    | some d => simpa using hd (p.team, d) (getVal_mem hv)
  have h1 : (1 : ℚ) ≤ (((getVal difficulty p.team).getD 3 : ℤ) : ℚ) := by
    exact_mod_cast hfdr.1
  have h5 : (((getVal difficulty p.team).getD 3 : ℤ) : ℚ) ≤ 5 := by
    exact_mod_cast hfdr.2
  have hfix0 :
      0 ≤ (5 - (((getVal difficulty p.team).getD 3 : ℤ) : ℚ)) / 4 :=
    div_nonneg (by linarith) (by norm_num)
  have hfix1 :
      (5 - (((getVal difficulty p.team).getD 3 : ℤ) : ℚ)) / 4 ≤ 1 := by
    rw [div_le_one (by norm_num)]
    linarith
  have hform := clamp01_bounds (p.form / 10)
  unfold calculate_ffi
  cases p.position <;> constructor <;> simp only [] <;>
    nlinarith [hform.1, hform.2, hfix0, hfix1]

/-- With nonnegative total points and ICT index, the value and ceiling
sub-score stays in the unit interval. -/
theorem vcs_bounds (p : Player) (htp : 0 ≤ p.total_points)
    (hict : 0 ≤ p.ict_index) :
    0 ≤ calculate_vcs p ∧ calculate_vcs p ≤ 1 := by
  have hv : 0 ≤ (if 0 < p.cost
        then min 1 (p.total_points / p.cost / 25) else 0) ∧
      (if 0 < p.cost then min 1 (p.total_points / p.cost / 25) else 0)
        ≤ 1 := by
    by_cases hc : 0 < p.cost
    · rw [if_pos hc]
      refine ⟨le_min (by norm_num) ?_, min_le_left _ _⟩
      exact div_nonneg (div_nonneg htp (le_of_lt hc)) (by norm_num)
    · rw [if_neg hc]
      norm_num
  have hcl : 0 ≤ min 1 (p.ict_index / 300) ∧
      min 1 (p.ict_index / 300) ≤ 1 :=
    ⟨le_min (by norm_num) (div_nonneg hict (by norm_num)),
      min_le_left _ _⟩
  unfold calculate_vcs
  constructor <;> nlinarith [hv.1, hv.2, hcl.1, hcl.2]

/-- With the chance of playing at most 100 when present, the status
multiplier stays in the unit interval. -/
theorem sss_bounds (p : Player)
    (hch : p.chance_of_playing_next_round.getD 100 ≤ 100) :
    0 ≤ calculate_sss p ∧ calculate_sss p ≤ 1 := by
  unfold calculate_sss
  cases hc : p.chance_of_playing_next_round with
  | none => norm_num
  | some c =>
    rw [hc] at hch
    simp only [Option.getD] at hch
    show 0 ≤ (if c < 75 then (0 : ℚ) else c / 100) ∧
      (if c < 75 then (0 : ℚ) else c / 100) ≤ 1
    by_cases hlt : c < 75
    · rw [if_pos hlt]
      norm_num
    · rw [if_neg hlt]
      push_neg at hlt
      constructor
      · exact div_nonneg (by linarith) (by norm_num)
      · rw [div_le_one (by norm_num)]
        linarith

/-- With nonnegative forecast values, the normalized predicted-points
sub-score stays in the unit interval (0 for ids absent from the map; in
the all-zero degenerate case the rational division yields 0, where the
source instead raises ZeroDivisionError). -/
theorem xp_score_bounds (xP : List (Nat × ℚ)) (pid : Nat)
    (hxp : ∀ kv ∈ xP, 0 ≤ kv.2) :
    0 ≤ ((getVal xP pid).getD 0) / max_xp xP ∧
      ((getVal xP pid).getD 0) / max_xp xP ≤ 1 := by
  have hmax0 : 0 ≤ max_xp xP := by
    rcases xP with _ | ⟨hd, rest⟩
    · norm_num [max_xp]
    · have h0 : 0 ≤ hd.2 := hxp hd (List.mem_cons_self _ _)
      exact le_trans h0 (le_max_xp_of_mem (List.mem_cons_self _ _))
  cases hv : getVal xP pid with
  | none => norm_num
  | some v =>
    have hv0 : 0 ≤ v := hxp (pid, v) (getVal_mem hv)
    have hvmax : v ≤ max_xp xP := le_max_xp_of_mem (getVal_mem hv)
    simp only [Option.getD]
    by_cases hm : max_xp xP = 0
    · rw [hm, div_zero]
      norm_num
    · have hmpos : 0 < max_xp xP := lt_of_le_of_ne hmax0 (Ne.symm hm)
      exact ⟨div_nonneg hv0 hmax0, (div_le_one hmpos).mpr hvmax⟩

/-- C10 counterexample: a player with negative ICT index (form 0, cost 5,
zero total points, team rated 5 in the map, empty forecast map — every
attribute the claim constrains is within its stated range, the ICT index
being merely a real number) receives a strictly negative CPV from
`calculate_all`. -/
theorem cpv_range_cex :
    cpv_one [] [(7, 5)] pNegIct < 0 ∧
      (pNegIct.id, cpv_one [] [(7, 5)] pNegIct) ∈
        calculate_all [pNegIct] [] [(7, 5)] := by
  constructor
  · norm_num [cpv_one, calculate_ffi, calculate_vcs, calculate_sss,
      clamp01, getVal, max_xp, W_XP, W_FFI, W_VCS, pNegIct, mkP]
  · simp [calculate_all]

/-- C10 (amended): for every catalog whose players have nonnegative total
points and ICT index and, when present, a chance of playing at most 100;
every difficulty map with values in [1,5]; and every forecast map with
nonnegative values — every CPV score produced by `calculate_all` lies in
[0, 80] (the weighted sub-scores sum to at most 40 + 25 + 15 = 80 and the
status multiplier lies in [0,1]). Nonnegativity of ICT (and of total
points) is an added hypothesis the original claim lacked. -/
theorem cpv_range_bounded (players : List Player) (xP : List (Nat × ℚ))
    (difficulty : List (Nat × ℤ))
    (hp : ∀ p ∈ players, 0 ≤ p.total_points ∧ 0 ≤ p.ict_index ∧
      p.chance_of_playing_next_round.getD 100 ≤ 100)
    (hd : ∀ kv ∈ difficulty, 1 ≤ kv.2 ∧ kv.2 ≤ 5)
    (hxp : ∀ kv ∈ xP, 0 ≤ kv.2) :
    ∀ kv ∈ calculate_all players xP difficulty,
      0 ≤ kv.2 ∧ kv.2 ≤ 80 := by
  intro kv hkv
  unfold calculate_all at hkv
  rw [List.mem_map] at hkv
  obtain ⟨p, hpmem, rfl⟩ := hkv
  obtain ⟨htp, hict, hch⟩ := hp p hpmem
  have hxps := xp_score_bounds xP p.id hxp
  have hffi := ffi_bounds difficulty p hd
  have hvcs := vcs_bounds p htp hict
  have hsss := sss_bounds p hch
  show 0 ≤ cpv_one xP difficulty p ∧ cpv_one xP difficulty p ≤ 80
  unfold cpv_one
  simp only [W_XP, W_FFI, W_VCS]
  constructor
  · apply mul_nonneg _ hsss.1
    nlinarith [hxps.1, hffi.1, hvcs.1]
  · nlinarith [hxps.1, hxps.2, hffi.1, hffi.2, hvcs.1, hvcs.2,
      hsss.1, hsss.2]

/-- Witness for C10's amended statement: the in-range player `pPlain`
scores within [0, 80]. -/
theorem cpv_range_bounded_witness :
    0 ≤ cpv_one [(3, 6)] [(5, 2)] pPlain ∧
      cpv_one [(3, 6)] [(5, 2)] pPlain ≤ 80 :=
  cpv_range_bounded [pPlain] [(3, 6)] [(5, 2)] (by decide) (by decide)
    (by decide) (pPlain.id, cpv_one [(3, 6)] [(5, 2)] pPlain)
    (by simp [calculate_all])

end FPL
